import Mathlib

/- Formal model of the snapshot serialization / delta reconciliation /
   rebuild core of Code Assembler Pro.

   Python strings are modelled as lists of characters (`Str`); the filesystem
   facts the delta engine consults (mtimes, is-file tests, the working
   directory) are passed in explicitly as a record of functions; fallible
   operations return `Option`.  Modules covered: `code_assembler/delta.py`,
   `code_assembler/rebuilder.py` and the document-assembly tail of
   `code_assembler/core.py`. -/

set_option maxRecDepth 16000

abbrev Str := List Char

/-- Embed a Lean string literal as a `Str`. -/
def chars (s : String) : Str := s.data

/-- A `datetime.datetime` value at the precision the delta engine handles:
seconds and microseconds are carried so that the `replace(second=0,
microsecond=0)` truncation in `_has_changed` is modelled faithfully. -/
structure DateTime where
  year : Nat
  month : Nat
  day : Nat
  hour : Nat
  minute : Nat
  second : Nat
  micro : Nat
deriving DecidableEq, Repr

/-- `dt.replace(second=0, microsecond=0)` (delta.py:123-124). -/
def trunc_minute (d : DateTime) : DateTime := { d with second := 0, micro := 0 }

def digit_val (c : Char) : Nat := c.toNat - 48

def str_to_nat (s : Str) : Nat := s.foldl (fun n c => n * 10 + digit_val c) 0

/-- Python regex whitespace class (ASCII range), used because `strptime`
translates a literal blank in the format string into one-or-more whitespace
characters. -/
def is_py_space (c : Char) : Bool :=
  c = ' ' || c = '\t' || c = '\n' || c = '\r' || c = Char.ofNat 11 || c = Char.ofNat 12

def take_digits (s : Str) : Str × Str := (s.takeWhile Char.isDigit, s.dropWhile Char.isDigit)

def leap_year (y : Nat) : Bool := y % 4 = 0 && (y % 100 ≠ 0 || y % 400 = 0)

def days_in_month (y m : Nat) : Nat :=
  if m = 2 then (if leap_year y then 29 else 28)
  else if m = 4 || m = 6 || m = 9 || m = 11 then 30
  else 31

/-- `datetime.strptime(date_str, "%Y-%m-%d %H:%M")` as used at delta.py:47:
exactly four year digits, one-or-two digit month/day/hour/minute fields with
the value ranges of Python's `_strptime` field patterns, literal `-` and `:`
separators, one-or-more whitespace between date and time, nothing left over,
and calendar validity as enforced by the `datetime` constructor.  `none`
models the swallowed `ValueError` (the entry is dropped). -/
def parse_timestamp (s : Str) : Option DateTime :=
  let ydr := take_digits s
  if ydr.1.length ≠ 4 then none else
  match ydr.2 with
  | '-' :: r2 =>
    let mdr := take_digits r2
    let m := str_to_nat mdr.1
    if ¬(mdr.1.length = 1 ∧ 1 ≤ m ∨ mdr.1.length = 2 ∧ 1 ≤ m ∧ m ≤ 12) then none else
    match mdr.2 with
    | '-' :: r4 =>
      let ddr := take_digits r4
      let d := str_to_nat ddr.1
      if ¬(ddr.1.length = 1 ∧ 1 ≤ d ∨ ddr.1.length = 2 ∧ 1 ≤ d ∧ d ≤ 31) then none else
      let sp := ddr.2.takeWhile is_py_space
      let r6 := ddr.2.dropWhile is_py_space
      if sp.length = 0 then none else
      let hdr := take_digits r6
      let h := str_to_nat hdr.1
      if ¬(hdr.1.length = 1 ∨ hdr.1.length = 2 ∧ h ≤ 23) then none else
      match hdr.2 with
      | ':' :: r8 =>
        let mir := take_digits r8
        let mi := str_to_nat mir.1
        if ¬(mir.1.length = 1 ∨ mir.1.length = 2 ∧ mi ≤ 59) then none else
        if mir.2 ≠ [] then none else
        let y := str_to_nat ydr.1
        if 1 ≤ y ∧ d ≤ days_in_month y m then some ⟨y, m, d, h, mi, 0, 0⟩ else none
      | _ => none
    | _ => none
  | _ => none

/-- Python `str.split('/')`: always at least one (possibly empty) piece. -/
def split_slash (p : Str) : List Str :=
  p.foldr (fun c acc =>
    if c = '/' then [] :: acc
    else match acc with
      | h :: t => (c :: h) :: t
      | [] => [[c]]) [[]]

def join_slash : List Str → Str
  | [] => []
  | [x] => x
  | x :: y :: t => x ++ '/' :: join_slash (y :: t)

/-- `pathlib.Path(p).name` for the POSIX paths the delta engine compares:
the last real path component (delta.py:102). -/
def base_name (p : Str) : Str :=
  ((split_slash p).filter (fun c => !c.isEmpty && !(c == chars "."))).getLastD []

def is_abs (p : Str) : Bool :=
  match p with
  | '/' :: _ => true
  | _ => false

/-- Component resolution of `posixpath.normpath`/`abspath` for absolute
paths: drop empty and `.` pieces, let `..` pop the previous piece. -/
def norm_comps (cs : List Str) : List Str :=
  cs.foldl (fun acc c =>
    if c.isEmpty || c == chars "." then acc
    else if c == chars ".." then acc.dropLast
    else acc ++ [c]) []

/-- The filesystem facts consumed by the delta engine.  `mtime` returning
`none` models `os.path.getmtime` raising `OSError`. -/
structure FileSys where
  mtime : Str → Option DateTime
  is_file : Str → Bool
  cwd : Str

/-- `posixpath.abspath` at the component level. -/
def abs_comps (fs : FileSys) (p : Str) : List Str :=
  if is_abs p then norm_comps (split_slash p)
  else norm_comps (split_slash (fs.cwd ++ '/' :: p))

/-- Longest common leading run of two component lists. -/
def common_lead : List Str → List Str → List Str
  | x :: xs, y :: ys => if x = y then x :: common_lead xs ys else []
  | _, _ => []

/-- `os.path.commonpath` (POSIX): `none` models the `ValueError` that
delta.py:78 catches (empty input or mixed absolute/relative paths). -/
def common_path (paths : List Str) : Option Str :=
  match paths with
  | [] => none
  | p :: rest =>
    if (p :: rest).all (fun q => is_abs q == is_abs p) then
      let comps := (p :: rest).map
        (fun q => (split_slash q).filter (fun c => !c.isEmpty && !(c == chars ".")))
      let common := comps.tail.foldl common_lead (comps.headD [])
      some ((if is_abs p then ['/'] else []) ++ join_slash common)
    else none

/-- `os.path.relpath(path, start)` (POSIX). -/
def rel_path (fs : FileSys) (pathv start : Str) : Str :=
  let pl := abs_comps fs pathv
  let sl := abs_comps fs start
  let i := (common_lead sl pl).length
  let rel := List.replicate (sl.length - i) (chars "..") ++ pl.drop i
  if rel.isEmpty then chars "." else join_slash rel

/-- `posixpath.dirname`. -/
def dir_name (p : Str) : Str :=
  let after := (p.reverse.takeWhile (fun c => !(c == '/'))).length
  if after = p.length then []
  else
    let head := p.take (p.length - after)
    if head.all (fun c => c == '/') then head
    else (head.reverse.dropWhile (fun c => c == '/')).reverse

/-- `normalize_key` (delta.py:55-57).  `str(Path(p))` normalization of
duplicate slashes and lone-dot segments is not modelled; `get_delta` reaches
this function only for an empty candidate path (the `ValueError` branch of
`os.path.relpath`), where `Path("")` prints as ".". -/
def normalize_key (p : Str) : Str :=
  let q := if p.isEmpty then chars "." else p
  let q := q.map (fun c => if c = '\\' then '/' else c)
  let q := q.map Char.toLower
  ((q.dropWhile (fun c => c == '/')).reverse.dropWhile (fun c => c == '/')).reverse

/-- Relative-path computation for one candidate (delta.py:85-90). -/
def compute_rel_path (fs : FileSys) (root absPath : Str) : Str :=
  if absPath.isEmpty then normalize_key absPath
  else
    let r := (rel_path fs absPath root).map (fun c => if c = '\\' then '/' else c)
    if (chars "./").isPrefixOf r then r.drop 2 else r

/-- Common-root selection (delta.py:73-81). -/
def compute_common_root (fs : FileSys) (currentFiles : List Str) : Str :=
  if currentFiles.isEmpty then fs.cwd
  else match common_path currentFiles with
    | none => fs.cwd
    | some cp => if fs.is_file cp then dir_name cp else cp

/-- `_has_changed` (delta.py:121-127); a missing mtime is the `OSError`
branch and reports "changed". -/
def has_changed (fs : FileSys) (absPath : Str) (snapshotDt : DateTime) : Bool :=
  match fs.mtime absPath with
  | none => true
  | some cur => !(trunc_minute cur == trunc_minute snapshotDt)

/-- Matching of one computed relative path against the snapshot keys
(delta.py:92-104): exact dictionary hit first, otherwise the first key in
snapshot order related by string suffix and agreeing on the basename. -/
def find_match (snapshot : List (Str × DateTime)) (relPath : Str) : Option (Str × DateTime) :=
  match snapshot.find? (fun e => e.1 == relPath) with
  | some e => some (relPath, e.2)
  | none =>
    snapshot.find? (fun e =>
      (e.1.isSuffixOf relPath || relPath.isSuffixOf e.1) && base_name relPath == base_name e.1)

structure DeltaScan where
  modified : List Str
  added : List Str
  matched : List Str
deriving DecidableEq, Repr

/-- Per-candidate classification loop of `get_delta` (delta.py:84-111).  The
`if match_key:` test at delta.py:106 is Python truthiness: both a `None`
result and an empty-string matched key send the file to `added`. -/
def delta_scan (fs : FileSys) (snapshot : List (Str × DateTime)) (root : Str) :
    List Str → DeltaScan
  | [] => ⟨[], [], []⟩
  | f :: rest =>
    let acc := delta_scan fs snapshot root rest
    match find_match snapshot (compute_rel_path fs root f) with
    | some kdt =>
      if kdt.1.isEmpty then ⟨acc.modified, f :: acc.added, acc.matched⟩
      else if has_changed fs f kdt.2 then ⟨f :: acc.modified, acc.added, kdt.1 :: acc.matched⟩
      else ⟨acc.modified, acc.added, kdt.1 :: acc.matched⟩
    | none => ⟨acc.modified, f :: acc.added, acc.matched⟩

structure DeltaResult where
  modified : List Str
  added : List Str
  deleted : List Str
deriving DecidableEq, Repr

/-- `get_delta` (delta.py:60-118), taking the already-decoded snapshot
record; an absent or undecodable metadata block is the empty snapshot. -/
def get_delta (fs : FileSys) (snapshot : List (Str × DateTime)) (currentFiles : List Str) :
    DeltaResult :=
  if snapshot.isEmpty then ⟨currentFiles, currentFiles, []⟩
  else
    let root := compute_common_root fs currentFiles
    let s := delta_scan fs snapshot root currentFiles
    ⟨s.modified, s.added, (snapshot.map Prod.fst).filter (fun k => !(s.matched.contains k))⟩

/-- Timestamp-decoding stage of `extract_metadata` (delta.py:45-49): entries
whose date string fails `strptime` are silently dropped. -/
def decode_files (entries : List (Str × Str)) : List (Str × DateTime) :=
  entries.filterMap (fun e => (parse_timestamp e.2).map (fun dt => (e.1, dt)))

/-- `get_delta` applied to the raw `files` record of the metadata block. -/
def get_delta_from_files (fs : FileSys) (entries : List (Str × Str))
    (currentFiles : List Str) : DeltaResult :=
  get_delta fs (decode_files entries) currentFiles

/- Document parser / rebuilder (`code_assembler/rebuilder.py`). -/

/-- Case-insensitive character comparison (the extraction regex is compiled
with `re.IGNORECASE`); ASCII scope. -/
def ci_eq (a b : Char) : Bool := a.toLower == b.toLower

/-- Case-insensitive literal test at the head of the input. -/
def ci_starts : Str → Str → Bool
  | [], _ => true
  | _ :: _, [] => false
  | p :: ps, c :: cs => ci_eq p c && ci_starts ps cs

/-- Lazy capture group `(.*?)` up to the closing fence `\n³` of the
pattern at rebuilder.py:53 (³ stands for three backticks): shortest
capture whose continuation matches. -/
def fence_capture : Str → Option Str
  | [] => none
  | c :: rest =>
    if ci_starts (chars "\n```") (c :: rest) then some []
    else (fence_capture rest).map (fun cap => c :: cap)

def is_lang_char (c : Char) : Bool := c.isAlphanum

/-- After a newline: the opening fence, the `[a-z0-9]*` language tag
(case-insensitive), a newline, then the capture. -/
def fence_at (s : Str) : Option Str :=
  if ci_starts (chars "```") s then
    match (s.drop 3).dropWhile is_lang_char with
    | '\n' :: tail => fence_capture tail
    | _ => none
  else none

/-- Lazy `.*?\n` (DOTALL) before the fence: scan forward for a newline whose
continuation matches the fence part, with backtracking. -/
def after_path_scan : Str → Option Str
  | [] => none
  | c :: rest => (if c = '\n' then fence_at rest else none) <|> after_path_scan rest

/-- Lazy `.*?` between the heading's opening backtick and the escaped path
followed by the closing backtick, with backtracking into the rest of the
pattern. -/
def header_scan : Str → Str → Option Str
  | [], _ => none
  | s@(_ :: rest), pathv =>
    (if ci_starts (pathv ++ chars "`") s then after_path_scan (s.drop (pathv.length + 1))
     else none) <|> header_scan rest pathv

/-- One attempt of the whole pattern `#+ `...path`...` at the current
position: one or more `#`, a blank, the opening backtick, then the rest. -/
def match_at (s : Str) (pathv : Str) : Option Str :=
  let hashes := s.takeWhile (fun c => c == '#')
  if hashes.isEmpty then none
  else match s.drop hashes.length with
    | ' ' :: b :: rest => if b == '`' then header_scan (b :: rest).tail pathv else none
    | _ => none

/-- `re.search` semantics: leftmost starting position wins. -/
def search_doc : Str → Str → Option Str
  | [], _ => none
  | s@(_ :: rest), pathv => match_at s pathv <|> search_doc rest pathv

/-- `CodebaseRebuilder._extract_file_content` (rebuilder.py:42-58): search the
document for `#+ `.*?path`.*?\n```[a-z0-9]*\n(.*?)\n````  (DOTALL,
IGNORECASE) and return the capture. -/
def extract_file_content (mdContent : Str) (relPath : Str) : Option Str :=
  search_doc mdContent relPath

/-- Python's `needle in hay` contiguous-substring test. -/
def contains_sub (needle : Str) : Str → Bool
  | [] => needle.isEmpty
  | _h :: t => needle.isPrefixOf (_h :: t) || contains_sub needle t

/-- The traversal guard of rebuilder.py:85: `".." in rel_path or
rel_path.startswith("/") or rel_path.startswith("\\")`. -/
def path_blocked (rel : Str) : Bool :=
  contains_sub (chars "..") rel || (chars "/").isPrefixOf rel || (chars "\\").isPrefixOf rel

def trunc_marker : Str := chars "[TRUNCATED]"

def has_trunc (content : Str) : Bool := contains_sub trunc_marker content

def msg_no_metadata : Str := chars "No valid metadata found in the Markdown file. Rebuild impossible."

def msg_content_not_found (rel : Str) : Str := chars "Content not found for: " ++ rel

def msg_security_skip (rel : Str) : Str := chars "Security skip (invalid path): " ++ rel

def msg_truncated (rel : Str) : Str := chars "Warning: " ++ rel ++ chars " was truncated in the source MD."

def msg_write_failed (rel e : Str) : Str := chars "Failed to write " ++ rel ++ chars ": " ++ e

/-- `self.output_dir / rel_path` for the non-absolute keys that survive the
traversal guard. -/
def target_path (outputDir rel : Str) : Str := outputDir ++ '/' :: rel

/-- Result of a rebuild run: the returned pair plus an explicit log of the
filesystem effects (directories created, files written). -/
structure RebuildResult where
  created : Nat
  errors : List Str
  mkdirs : List Str
  writes : List (Str × Str)
deriving DecidableEq, Repr

/-- Processing of one metadata key by the rebuild loop (rebuilder.py:77-106).
`writeErr` models the `except Exception` around the mkdir/write pair: `some
e` means the write attempt for that target raised `e`. -/
def rebuild_step (mdContent outputDir : Str) (dryRun : Bool) (writeErr : Str → Option Str)
    (acc : RebuildResult) (relPath : Str) : RebuildResult :=
  match extract_file_content mdContent relPath with
  | none => { acc with errors := acc.errors ++ [msg_content_not_found relPath] }
  | some content =>
    if path_blocked relPath then
      { acc with errors := acc.errors ++ [msg_security_skip relPath] }
    else if dryRun then { acc with created := acc.created + 1 }
    else
      let target := target_path outputDir relPath
      match writeErr target with
      | some e => { acc with errors := acc.errors ++ [msg_write_failed relPath e] }
      | none =>
        { acc with
          mkdirs := acc.mkdirs ++ [dir_name target],
          writes := acc.writes ++ [(target, content)],
          errors := acc.errors ++ (if has_trunc content then [msg_truncated relPath] else []),
          created := acc.created + 1 }

/-- `CodebaseRebuilder.rebuild` (rebuilder.py:60-108).  `metaFiles = none`
models `_extract_metadata` failing (missing file, no marker, bad JSON);
`some files` is the key list of the decoded `files` record in insertion
order. -/
def rebuild (mdContent : Str) (metaFiles : Option (List Str)) (outputDir : Str)
    (dryRun : Bool) (writeErr : Str → Option Str) : RebuildResult :=
  match metaFiles with
  | none => ⟨0, [msg_no_metadata], [], []⟩
  | some files =>
    files.foldl (rebuild_step mdContent outputDir dryRun writeErr)
      ⟨0, [], if dryRun then [] else [outputDir], []⟩

/- Assembly-side document model (`code_assembler/core.py` plus the
formatter pieces the sources do not contain). -/

/-- Minimal JSON string literal (keys and timestamps contain no character
needing an escape). -/
def json_quote (s : Str) : Str := '"' :: s ++ chars "\""

/-- `json.dumps` rendering of one `files` entry. -/
def json_pair (e : Str × Str) : Str := json_quote e.1 ++ chars ": " ++ json_quote e.2

/-- Comma-join with the default `json.dumps` separator. -/
def join_comma : List Str → Str
  | [] => []
  | [x] => x
  | x :: y :: t => x ++ chars ", " ++ join_comma (y :: t)

/-- `json.dumps` of the metadata record used by the snapshot format. -/
def json_metadata (version generatedAt : Str) (files : List (Str × Str)) : Str :=
  chars "\x7b\"version\": " ++ json_quote version ++
  chars ", \"generated_at\": " ++ json_quote generatedAt ++
  chars ", \"files\": \x7b" ++ join_comma (files.map json_pair) ++ chars "\x7d\x7d"

/-- Modelled from the spec: `MarkdownFormatter.generate_metadata_block` is
invoked at core.py:223 but its definition (and the templates directory) is
absent from the sources.  Shape per spec section 6 and the snapshots built in
tests/test_rebuild.py: the serialized record between the unique comment
markers, appended after the content. -/
def generate_metadata_block (version generatedAt : Str) (files : List (Str × Str)) : Str :=
  chars "\n<!-- CODE_ASSEMBLER_METADATA\n" ++ json_metadata version generatedAt files ++
  chars "\n-->"

/-- Modelled from the spec: the per-file block template
`components/file_block.md.j2` is absent from the sources.  Shape per spec
section 6 (heading with the backtick-quoted relative path, then the fenced
content) as also used by tests/test_rebuild.py. -/
def file_block (relPath lang content : Str) : Str :=
  chars "# " ++ '`' :: relPath ++ chars "`\n\n```" ++ lang ++ '\n' :: content ++ chars "\n```\n"

/-- The document returned by `CodebaseAssembler.assemble` (core.py:228):
`header + "\n\n" + full_content + metadata_block`, where `full_content` is
the concatenation of the emitted file blocks. -/
def assemble_doc (header : Str) (files : List (Str × Str)) (version generatedAt : Str)
    (stamps : List (Str × Str)) : Str :=
  header ++ chars "\n\n" ++
  (files.map (fun e => file_block e.1 (chars "python") e.2)).foldr (· ++ ·) [] ++
  generate_metadata_block version generatedAt stamps

/- Concrete instances used by the claim theorems, counterexamples and
witnesses. -/

def no_write_err : Str → Option Str := fun _ => none

/-- 2026-02-17 10:00:00. -/
def dt_ref : DateTime := ⟨2026, 2, 17, 10, 0, 0, 0⟩

/-- 2026-02-17 10:00:45 — same minute as `dt_ref`, different seconds. -/
def dt_ref_sec : DateTime := ⟨2026, 2, 17, 10, 0, 45, 0⟩

/-- 2026-02-17 11:30:00 — a different minute. -/
def dt_late : DateTime := ⟨2026, 2, 17, 11, 30, 0, 0⟩

/-- A filesystem with no readable mtimes and no files. -/
def fs_plain : FileSys := ⟨fun _ => none, fun _ => false, chars "/"⟩

/-- Filesystem for the sibling-basename scenario: `/r/a/config.py` untouched
since the snapshot (same minute), `/r/b/config.py` rewritten later. -/
def fs_ab : FileSys :=
  ⟨fun p => if p = chars "/r/a/config.py" then some dt_ref_sec
            else if p = chars "/r/b/config.py" then some dt_late else none,
   fun _ => false, chars "/"⟩

def snap_ab : List (Str × DateTime) :=
  [(chars "a/config.py", dt_ref), (chars "b/config.py", dt_ref)]

def current_ab : List Str := [chars "/r/a/config.py", chars "/r/b/config.py"]

/-- Filesystem for the `b` / `ab` sibling-directory scenario. -/
def fs_cx : FileSys :=
  ⟨fun _ => some dt_late, fun p => p == chars "/r/ab/config.py", chars "/"⟩

def snap_cx : List (Str × DateTime) :=
  [(chars "b/config.py", dt_ref), (chars "ab/config.py", dt_ref)]

/-- Assembled document over the file set \x7bab.py ↦ "A", b.py ↦ "B"\x7d. -/
def doc_rt : Str :=
  assemble_doc (chars "# Codebase")
    [(chars "ab.py", chars "A"), (chars "b.py", chars "B")]
    (chars "4.4.0") (chars "2026-02-17 10:00:00")
    [(chars "ab.py", chars "2026-02-17 10:00"), (chars "b.py", chars "2026-02-17 10:00")]

/-- Assembled document holding one truncated file. -/
def doc_tr : Str :=
  assemble_doc (chars "# H")
    [(chars "large.py", chars "part 1\n[TRUNCATED]\npart 2")]
    (chars "4.4.0") (chars "2026-02-17 10:00:00")
    [(chars "large.py", chars "2026-02-17 10:00")]

/-- Assembled document holding three ordinary files. -/
def doc_three : Str :=
  assemble_doc (chars "# H")
    [(chars "src/main.py", chars "print(1)"), (chars "config/settings.json", chars "x"),
     (chars "t.py", chars "y")]
    (chars "4.4.0") (chars "2026-02-17 10:00:00") []

/-- Assembled document whose metadata key escapes the output root. -/
def doc_evil : Str :=
  assemble_doc (chars "# H")
    [(chars "../../evil.py", chars "malicious code")]
    (chars "4.4.0") (chars "2026-02-17 10:00:00") []

/-- The claim-side characterization of a rejected key: it contains a
parent-directory segment, or begins with a path-root marker. -/
def spec_traversal_key (k : Str) : Prop :=
  k = chars ".." ∨ (chars "../") <+: k ∨ (chars "/..") <:+ k ∨ (chars "/../") <:+: k ∨
  (chars "/") <+: k ∨ (chars "\\") <+: k

/- Helper lemmas shared by the claim theorems. -/

theorem contains_sub_of_mid (n h : Str) (hinf : n <:+: h) : contains_sub n h = true := by
  obtain ⟨s, t, rfl⟩ := hinf
  induction s with
  | nil =>
    cases n with
    | nil => cases t <;> simp [contains_sub]
    | cons c n' =>
      have hp : (c :: n').isPrefixOf ((c :: n') ++ t) = true := by
        simp
      simp [contains_sub, hp]
  | cons c s' ih =>
    have ih' : contains_sub n (s' ++ (n ++ t)) = true := by
      simpa [List.append_assoc] using ih
    simp [contains_sub, ih']

theorem spec_traversal_blocked (k : Str) (hk : spec_traversal_key k) : path_blocked k = true := by
  unfold path_blocked
  rcases hk with h | h | h | h | h | h
  · subst h; decide
  · have h1 : (chars "..") <+: k := List.IsPrefix.trans (by decide) h
    rw [contains_sub_of_mid _ _ h1.isInfix]
    simp
  · have h1 : (chars "..") <:+ k := List.IsSuffix.trans (by decide) h
    rw [contains_sub_of_mid _ _ h1.isInfix]
    simp
  · have h1 : (chars "..") <:+: k := List.IsInfix.trans (by decide) h
    rw [contains_sub_of_mid _ _ h1]
    simp
  · have h1 : (chars "/").isPrefixOf k = true := by simpa using h
    rw [h1]
    simp
  · have h1 : (chars "\\").isPrefixOf k = true := by simpa using h
    rw [h1]
    simp

theorem suffix_append_cancel (a b c : Str) (h : a ++ c <:+ b ++ c) : a <:+ b := by
  obtain ⟨t, ht⟩ := h
  refine ⟨t, ?_⟩
  have ht2 : (t ++ a) ++ c = b ++ c := by
    rw [List.append_assoc]
    exact ht
  exact List.append_cancel_right ht2

theorem delta_scan_modified_spec (fs : FileSys) (snapshot : List (Str × DateTime)) (root : Str) :
    ∀ (cur : List Str) (x : Str), x ∈ (delta_scan fs snapshot root cur).modified →
      ∃ kdt : Str × DateTime,
        find_match snapshot (compute_rel_path fs root x) = some kdt ∧
        kdt.1.isEmpty = false ∧
        has_changed fs x kdt.2 = true := by
  intro cur
  induction cur with
  | nil => intro x hx; simp [delta_scan] at hx
  | cons f rest ih =>
    intro x hx
    simp only [delta_scan] at hx
    split at hx
    next kdt heq =>
      split at hx
      next hemp => exact ih x hx
      next hemp =>
        split at hx
        next hch =>
          rcases List.mem_cons.mp hx with rfl | hx'
          · exact ⟨kdt, heq, by simpa using hemp, hch⟩
          · exact ih x hx'
        next hch => exact ih x hx
    next heq => exact ih x hx

theorem delta_scan_added_spec (fs : FileSys) (snapshot : List (Str × DateTime)) (root : Str) :
    ∀ (cur : List Str) (x : Str), x ∈ (delta_scan fs snapshot root cur).added →
      find_match snapshot (compute_rel_path fs root x) = none ∨
      ∃ kdt : Str × DateTime,
        find_match snapshot (compute_rel_path fs root x) = some kdt ∧
        kdt.1.isEmpty = true := by
  intro cur
  induction cur with
  | nil => intro x hx; simp [delta_scan] at hx
  | cons f rest ih =>
    intro x hx
    simp only [delta_scan] at hx
    split at hx
    next kdt heq =>
      split at hx
      next hemp =>
        rcases List.mem_cons.mp hx with rfl | hx'
        · exact Or.inr ⟨kdt, heq, hemp⟩
        · exact ih x hx'
      next hemp =>
        split at hx
        next hch => exact ih x hx
        next hch => exact ih x hx
    next heq =>
      rcases List.mem_cons.mp hx with rfl | hx'
      · exact Or.inl heq
      · exact ih x hx'

theorem delta_scan_added_of_none (fs : FileSys) (snapshot : List (Str × DateTime)) (root : Str) :
    ∀ (cur : List Str) (f : Str), f ∈ cur →
      find_match snapshot (compute_rel_path fs root f) = none →
      f ∈ (delta_scan fs snapshot root cur).added := by
  intro cur
  induction cur with
  | nil => intro f hf; simp at hf
  | cons g rest ih =>
    intro f hf hfm
    simp only [delta_scan]
    rcases List.mem_cons.mp hf with rfl | hf'
    · split
      next kdt heq => exact absurd heq (by simp [hfm])
      next heq => exact List.mem_cons_self _ _
    · split
      next kdt heq =>
        split
        next hemp => exact List.mem_cons_of_mem _ (ih f hf' hfm)
        next hemp =>
          split
          next hch => exact ih f hf' hfm
          next hch => exact ih f hf' hfm
      next heq => exact List.mem_cons_of_mem _ (ih f hf' hfm)

theorem delta_scan_matched_spec (fs : FileSys) (snapshot : List (Str × DateTime)) (root : Str) :
    ∀ (cur : List Str) (f : Str) (kdt : Str × DateTime), f ∈ cur →
      find_match snapshot (compute_rel_path fs root f) = some kdt →
      kdt.1.isEmpty = false →
      kdt.1 ∈ (delta_scan fs snapshot root cur).matched := by
  intro cur
  induction cur with
  | nil => intro f kdt hf; simp at hf
  | cons g rest ih =>
    intro f kdt hf hfm hkne
    simp only [delta_scan]
    rcases List.mem_cons.mp hf with rfl | hf'
    · split
      next kdt2 heq =>
        have hkk : kdt2 = kdt := by rw [hfm] at heq; exact (Option.some.inj heq).symm
        subst hkk
        rw [if_neg (by simp [hkne])]
        split
        next hch => exact List.mem_cons_self _ _
        next hch => exact List.mem_cons_self _ _
      next heq => exact absurd hfm (by simp [heq])
    · have hrec := ih f kdt hf' hfm hkne
      split
      next kdt2 heq =>
        split
        next hemp => exact hrec
        next hemp =>
          split
          next hch => exact List.mem_cons_of_mem _ hrec
          next hch => exact List.mem_cons_of_mem _ hrec
      next heq => exact hrec

theorem get_delta_deleted_spec (fs : FileSys) (snapshot : List (Str × DateTime))
    (cur : List Str) (k : Str) (hk : k ∈ (get_delta fs snapshot cur).deleted) :
    k ∈ snapshot.map Prod.fst ∧
    k ∉ (delta_scan fs snapshot (compute_common_root fs cur) cur).matched := by
  unfold get_delta at hk
  by_cases hemp : snapshot.isEmpty
  · rw [if_pos hemp] at hk
    simp at hk
  · rw [if_neg hemp] at hk
    have h2 := List.mem_filter.mp hk
    refine ⟨h2.1, ?_⟩
    simpa using h2.2

theorem rebuild_step_errors_mono (md out : Str) (dry : Bool) (werr : Str → Option Str)
    (acc : RebuildResult) (k e : Str) (he : e ∈ acc.errors) :
    e ∈ (rebuild_step md out dry werr acc k).errors := by
  simp only [rebuild_step]
  split
  next heq => exact List.mem_append_left _ he
  next c heq =>
    split
    next hb => exact List.mem_append_left _ he
    next hb =>
      split
      next hd => exact he
      next hd =>
        split
        next e2 heq2 => exact List.mem_append_left _ he
        next heq2 => exact List.mem_append_left _ he

theorem rebuild_foldl_errors_mono (md out : Str) (dry : Bool) (werr : Str → Option Str) :
    ∀ (l : List Str) (acc : RebuildResult) (e : Str), e ∈ acc.errors →
      e ∈ (l.foldl (rebuild_step md out dry werr) acc).errors := by
  intro l
  induction l with
  | nil => intro acc e he; simpa using he
  | cons f t ih =>
    intro acc e he
    rw [List.foldl_cons]
    exact ih _ e (rebuild_step_errors_mono md out dry werr acc f e he)

theorem rebuild_foldl_errors_mem (md out : Str) (dry : Bool) (werr : Str → Option Str) (k e : Str)
    (hadd : ∀ acc : RebuildResult, e ∈ (rebuild_step md out dry werr acc k).errors) :
    ∀ (l : List Str) (acc : RebuildResult), k ∈ l →
      e ∈ (l.foldl (rebuild_step md out dry werr) acc).errors := by
  intro l
  induction l with
  | nil => intro acc hk; simp at hk
  | cons f t ih =>
    intro acc hk
    rw [List.foldl_cons]
    rcases List.mem_cons.mp hk with rfl | hk'
    · exact rebuild_foldl_errors_mono md out dry werr t _ e (hadd acc)
    · exact ih _ hk'

theorem rebuild_step_dry_frame (md out : Str) (werr : Str → Option Str)
    (acc : RebuildResult) (f : Str) :
    (rebuild_step md out true werr acc f).writes = acc.writes ∧
    (rebuild_step md out true werr acc f).mkdirs = acc.mkdirs ∧
    (rebuild_step md out true werr acc f).created =
      acc.created +
        (if (extract_file_content md f).isSome && !(path_blocked f) then 1 else 0) := by
  simp only [rebuild_step]
  split
  next heq => simp [heq]
  next c heq =>
    split
    next hb => simp [heq, hb]
    next hb => simp [heq, hb]

theorem rebuild_foldl_dry_frame (md out : Str) (werr : Str → Option Str) :
    ∀ (l : List Str) (acc : RebuildResult),
      (l.foldl (rebuild_step md out true werr) acc).writes = acc.writes ∧
      (l.foldl (rebuild_step md out true werr) acc).mkdirs = acc.mkdirs ∧
      (l.foldl (rebuild_step md out true werr) acc).created =
        acc.created +
          (l.filter (fun kk => (extract_file_content md kk).isSome && !(path_blocked kk))).length := by
  intro l
  induction l with
  | nil => intro acc; simp
  | cons f t ih =>
    intro acc
    rw [List.foldl_cons]
    obtain ⟨h1, h2, h3⟩ := ih (rebuild_step md out true werr acc f)
    obtain ⟨s1, s2, s3⟩ := rebuild_step_dry_frame md out werr acc f
    refine ⟨by rw [h1, s1], by rw [h2, s2], ?_⟩
    rw [h3, s3]
    simp only [List.filter_cons]
    by_cases hc : ((extract_file_content md f).isSome && !(path_blocked f)) = true
    · rw [if_pos hc, if_pos hc, List.length_cons]
      omega
    · rw [if_neg hc, if_neg hc]
      omega

theorem rebuild_step_writes_safe (md out : Str) (dry : Bool) (werr : Str → Option Str)
    (acc : RebuildResult) (k : Str)
    (hacc : ∀ w ∈ acc.writes, ∃ k2, path_blocked k2 = false ∧ w.1 = target_path out k2) :
    ∀ w ∈ (rebuild_step md out dry werr acc k).writes,
      ∃ k2, path_blocked k2 = false ∧ w.1 = target_path out k2 := by
  simp only [rebuild_step]
  split
  next heq => exact hacc
  next c heq =>
    split
    next hb => exact hacc
    next hb =>
      split
      next hd => exact hacc
      next hd =>
        split
        next e2 heq2 => exact hacc
        next heq2 =>
          intro w hw
          rcases List.mem_append.mp hw with hw' | hw'
          · exact hacc w hw'
          · have hw2 := List.mem_singleton.mp hw'
            subst hw2
            have hb' : path_blocked k = false := by
              simpa using hb
            exact ⟨k, hb', rfl⟩

theorem rebuild_foldl_writes_safe (md out : Str) (dry : Bool) (werr : Str → Option Str) :
    ∀ (l : List Str) (acc : RebuildResult),
      (∀ w ∈ acc.writes, ∃ k2, path_blocked k2 = false ∧ w.1 = target_path out k2) →
      ∀ w ∈ (l.foldl (rebuild_step md out dry werr) acc).writes,
        ∃ k2, path_blocked k2 = false ∧ w.1 = target_path out k2 := by
  intro l
  induction l with
  | nil => intro acc hacc; simpa using hacc
  | cons f t ih =>
    intro acc hacc
    rw [List.foldl_cons]
    exact ih _ (rebuild_step_writes_safe md out dry werr acc f hacc)

theorem join_comma_mem_mid (x : Str) : ∀ (l : List Str), x ∈ l → x <:+: join_comma l := by
  intro l
  induction l with
  | nil => intro hx; simp at hx
  | cons a t ih =>
    intro hx
    rcases List.mem_cons.mp hx with rfl | hx'
    · cases t with
      | nil => exact List.infix_refl x
      | cons b t2 =>
        refine (List.prefix_append x (chars ", " ++ join_comma (b :: t2))).isInfix.trans ?_
        have h2 : x ++ (chars ", " ++ join_comma (b :: t2)) = join_comma (x :: b :: t2) := by
          simp [join_comma, List.append_assoc]
        rw [h2]
    · cases t with
      | nil => simp at hx'
      | cons b t2 =>
        refine (ih hx').trans ?_
        have h2 : (a ++ chars ", ") ++ join_comma (b :: t2) = join_comma (a :: b :: t2) := by
          simp [join_comma, List.append_assoc]
        rw [← h2]
        exact (List.suffix_append _ _).isInfix

/- Claim theorems. -/

/-- C1: the spec states that with no decodable metadata block every current
candidate is returned in `added` with `modified` and `deleted` empty.  The
code (delta.py:66) instead returns the candidate set as `modified` as well:
evaluated at one candidate and an empty snapshot, `modified` is not empty. -/
theorem get_delta_absent_baseline_eval :
    get_delta fs_plain [] [chars "/r/a.py"] =
      ⟨[chars "/r/a.py"], [chars "/r/a.py"], []⟩ ∧
    (get_delta fs_plain [] [chars "/r/a.py"]).modified ≠ [] := by decide

/-- C2 counterexample: with an absent baseline the same candidate is a member
of both `modified` and `added`, so the two sets are not disjoint. -/
theorem get_delta_overlap_cex :
    chars "/r/m.py" ∈ (get_delta fs_plain [] [chars "/r/m.py"]).modified ∧
    chars "/r/m.py" ∈ (get_delta fs_plain [] [chars "/r/m.py"]).added := by decide

/-- C2 (amended): whenever the decoded baseline is non-empty, each current
file is in at most one of `modified`/`added`, and each snapshot key is in at
most one of matched/`deleted`; on the absent-baseline path `modified` and
`added` both equal the whole candidate set. -/
theorem get_delta_disjoint (fs : FileSys) (snapshot : List (Str × DateTime))
    (current : List Str) (hne : snapshot.isEmpty = false) :
    (∀ f, f ∈ (get_delta fs snapshot current).modified →
        f ∉ (get_delta fs snapshot current).added) ∧
    (∀ k, k ∈ (delta_scan fs snapshot (compute_common_root fs current) current).matched →
        k ∉ (get_delta fs snapshot current).deleted) := by
  constructor
  · intro f hmod hadd
    unfold get_delta at hmod hadd
    rw [if_neg (by simp [hne])] at hmod hadd
    obtain ⟨kdt, hfm, hkne, _⟩ := delta_scan_modified_spec fs snapshot _ current f hmod
    rcases delta_scan_added_spec fs snapshot _ current f hadd with hnone | ⟨kdt2, hfm2, hemp2⟩
    · rw [hnone] at hfm
      cases hfm
    · rw [hfm] at hfm2
      obtain rfl := Option.some.inj hfm2
      simp [hkne] at hemp2
  · intro k hmat hdel
    obtain ⟨_, hk2⟩ := get_delta_deleted_spec fs snapshot current k hdel
    exact hk2 hmat

/-- C2 witness: in the two-key snapshot scenario the modified file is not in
`added`. -/
theorem get_delta_disjoint_witness :
    chars "/r/b/config.py" ∉ (get_delta fs_ab snap_ab current_ab).added :=
  (get_delta_disjoint fs_ab snap_ab current_ab (by decide)).1
    (chars "/r/b/config.py") (by decide)

/-- C3: round trip fails on the code.  For the file set ab.py ↦ "A",
b.py ↦ "B", the extraction regex of rebuilder.py:53 matches the key b.py
inside the heading of ab.py (the path is matched as a bare substring after a
backtick), so rebuild writes "A" — not the original "B" — to b.py. -/
theorem roundtrip_substring_path_eval :
    extract_file_content doc_rt (chars "ab.py") = some (chars "A") ∧
    extract_file_content doc_rt (chars "b.py") = some (chars "A") ∧
    (rebuild doc_rt (some [chars "ab.py", chars "b.py"]) (chars "/out") false no_write_err).writes =
      [(chars "/out/ab.py", chars "A"), (chars "/out/b.py", chars "A")] ∧
    chars "A" ≠ chars "B" := by decide

/-- C4: the assembled document ends with the metadata block delimited by the
unique markers, whose payload is the serialized record holding the format
version, the generation timestamp and the path-to-timestamp mapping of the
emitted files. -/
theorem assemble_doc_metadata_block (header : Str) (files : List (Str × Str))
    (version generatedAt : Str) (stamps : List (Str × Str)) :
    generate_metadata_block version generatedAt stamps <:+
      assemble_doc header files version generatedAt stamps ∧
    generate_metadata_block version generatedAt stamps =
      chars "\n<!-- CODE_ASSEMBLER_METADATA\n" ++ json_metadata version generatedAt stamps ++
        chars "\n-->" ∧
    json_quote version <:+: json_metadata version generatedAt stamps ∧
    json_quote generatedAt <:+: json_metadata version generatedAt stamps ∧
    (∀ e ∈ stamps, json_pair e <:+: json_metadata version generatedAt stamps) := by
  refine ⟨?_, rfl, ?_, ?_, ?_⟩
  · unfold assemble_doc
    exact List.suffix_append _ _
  · refine ⟨chars "\x7b\"version\": ",
      chars ", \"generated_at\": " ++ json_quote generatedAt ++
        chars ", \"files\": \x7b" ++ join_comma (stamps.map json_pair) ++ chars "\x7d\x7d", ?_⟩
    simp [json_metadata, List.append_assoc]
  · refine ⟨chars "\x7b\"version\": " ++ json_quote version ++ chars ", \"generated_at\": ",
      chars ", \"files\": \x7b" ++ join_comma (stamps.map json_pair) ++ chars "\x7d\x7d", ?_⟩
    simp [json_metadata, List.append_assoc]
  · intro e he
    have h1 : json_pair e <:+: join_comma (stamps.map json_pair) :=
      join_comma_mem_mid _ _ (List.mem_map_of_mem _ he)
    refine h1.trans ⟨chars "\x7b\"version\": " ++ json_quote version ++
        chars ", \"generated_at\": " ++ json_quote generatedAt ++ chars ", \"files\": \x7b",
      chars "\x7d\x7d", ?_⟩
    simp [json_metadata, List.append_assoc]

/-- C4 witness: concrete instance, including one concrete mapping entry. -/
theorem assemble_doc_metadata_block_witness :
    generate_metadata_block (chars "4.4.0") (chars "2026-02-17 10:00:00")
        [(chars "ab.py", chars "2026-02-17 10:00"), (chars "b.py", chars "2026-02-17 10:00")] <:+
      doc_rt ∧
    json_pair (chars "ab.py", chars "2026-02-17 10:00") <:+:
      json_metadata (chars "4.4.0") (chars "2026-02-17 10:00:00")
        [(chars "ab.py", chars "2026-02-17 10:00"), (chars "b.py", chars "2026-02-17 10:00")] :=
  ⟨(assemble_doc_metadata_block (chars "# Codebase")
      [(chars "ab.py", chars "A"), (chars "b.py", chars "B")]
      (chars "4.4.0") (chars "2026-02-17 10:00:00")
      [(chars "ab.py", chars "2026-02-17 10:00"), (chars "b.py", chars "2026-02-17 10:00")]).1,
   (assemble_doc_metadata_block (chars "# Codebase")
      [(chars "ab.py", chars "A"), (chars "b.py", chars "B")]
      (chars "4.4.0") (chars "2026-02-17 10:00:00")
      [(chars "ab.py", chars "2026-02-17 10:00"), (chars "b.py", chars "2026-02-17 10:00")]).2.2.2.2
     _ (by decide)⟩

/-- C5 counterexample: snapshot keys b/config.py and ab/config.py live in
sibling directories and share a basename; for the current file of directory
ab (computed relative path config.py) the suffix rule pairs it with the key
of directory b, and ab/config.py is reported deleted. -/
theorem find_match_sibling_crossmatch_cex :
    (delta_scan fs_cx snap_cx (compute_common_root fs_cx [chars "/r/ab/config.py"])
        [chars "/r/ab/config.py"]).matched = [chars "b/config.py"] ∧
    get_delta fs_cx snap_cx [chars "/r/ab/config.py"] =
      ⟨[chars "/r/ab/config.py"], [], [chars "ab/config.py"]⟩ := by decide

/-- C5 (amended): when the computed relative path keeps its directory
qualifier d2/name and neither sibling directory name is a character-level
suffix of the other, the reconciliation never pairs it with the sibling key
d1/name. -/
theorem find_match_no_sibling_crossmatch (snapshot : List (Str × DateTime))
    (d1 d2 n : Str) (dt : DateTime) (hne : d1 ≠ d2)
    (h12 : ¬ d1 <:+ d2) (h21 : ¬ d2 <:+ d1) :
    find_match snapshot (d2 ++ '/' :: n) ≠ some (d1 ++ '/' :: n, dt) := by
  intro hcontra
  unfold find_match at hcontra
  cases hex : snapshot.find? (fun e => e.1 == (d2 ++ '/' :: n)) with
  | some e =>
    rw [hex] at hcontra
    have h := Option.some.inj hcontra
    have h1 : d2 ++ '/' :: n = d1 ++ '/' :: n := congrArg Prod.fst h
    exact hne (List.append_cancel_right h1).symm
  | none =>
    rw [hex] at hcontra
    have hp := List.find?_some hcontra
    simp only [Bool.and_eq_true, Bool.or_eq_true] at hp
    rcases hp.1 with hs | hs
    · have hsfx : (d1 ++ '/' :: n) <:+ (d2 ++ '/' :: n) := by simpa using hs
      exact h12 (suffix_append_cancel d1 d2 ('/' :: n) hsfx)
    · have hsfx : (d2 ++ '/' :: n) <:+ (d1 ++ '/' :: n) := by simpa using hs
      exact h21 (suffix_append_cancel d2 d1 ('/' :: n) hsfx)

/-- C5 witness: the a/config.py ↔ b/config.py instance of the amended rule,
plus the concrete scenario — only b/config.py is modified and a/config.py
appears in no set. -/
theorem find_match_no_sibling_crossmatch_witness :
    find_match snap_ab (chars "b" ++ '/' :: chars "config.py") ≠
      some (chars "a" ++ '/' :: chars "config.py", dt_ref) ∧
    get_delta fs_ab snap_ab current_ab = ⟨[chars "/r/b/config.py"], [], []⟩ :=
  ⟨find_match_no_sibling_crossmatch snap_ab (chars "a") (chars "b") (chars "config.py") dt_ref
      (by decide) (by decide) (by decide), by decide⟩

/-- C6 counterexample: for the key ../../evil.py with no matching content
block the recorded diagnostic is "Content not found", not a security one
(content extraction runs before the traversal guard, rebuilder.py:78-87);
still nothing is written. -/
theorem rebuild_traversal_missing_content_cex :
    rebuild [] (some [chars "../../evil.py"]) (chars "/out") false no_write_err =
      ⟨0, [msg_content_not_found (chars "../../evil.py")], [chars "/out"], []⟩ ∧
    msg_security_skip (chars "../../evil.py") ∉
      (rebuild [] (some [chars "../../evil.py"]) (chars "/out") false no_write_err).errors := by
  decide

/-- C6 (amended): a key with a parent-directory segment or a leading
path-root marker never produces a write or a directory and never counts as
created; when its content block is located the security diagnostic is
recorded (when it is not, a content-not-found diagnostic is recorded
instead); and every write the run performs lands on `outputDir/key` for a
key that passed the guard. -/
theorem rebuild_traversal_key_guard (md out : Str) (dry : Bool) (werr : Str → Option Str)
    (files : List Str) (k : Str) (acc : RebuildResult) (hk : spec_traversal_key k) :
    ((rebuild_step md out dry werr acc k).writes = acc.writes ∧
     (rebuild_step md out dry werr acc k).mkdirs = acc.mkdirs ∧
     (rebuild_step md out dry werr acc k).created = acc.created) ∧
    (∀ c, extract_file_content md k = some c → k ∈ files →
        msg_security_skip k ∈ (rebuild md (some files) out dry werr).errors) ∧
    (extract_file_content md k = none → k ∈ files →
        msg_content_not_found k ∈ (rebuild md (some files) out dry werr).errors) ∧
    (∀ w ∈ (rebuild md (some files) out dry werr).writes,
        ∃ k2, path_blocked k2 = false ∧ w.1 = target_path out k2) := by
  have hb := spec_traversal_blocked k hk
  refine ⟨?_, ?_, ?_, ?_⟩
  · simp only [rebuild_step]
    split
    next heq => exact ⟨rfl, rfl, rfl⟩
    next c heq =>
      rw [if_pos hb]
      exact ⟨rfl, rfl, rfl⟩
  · intro c hc hkf
    have hadd : ∀ acc2 : RebuildResult,
        msg_security_skip k ∈ (rebuild_step md out dry werr acc2 k).errors := by
      intro acc2
      simp only [rebuild_step]
      split
      next heq => rw [hc] at heq; cases heq
      next c2 heq =>
        rw [if_pos hb]
        exact List.mem_append_right _ (List.mem_singleton.mpr rfl)
    exact rebuild_foldl_errors_mem md out dry werr k (msg_security_skip k) hadd files _ hkf
  · intro hcn hkf
    have hadd : ∀ acc2 : RebuildResult,
        msg_content_not_found k ∈ (rebuild_step md out dry werr acc2 k).errors := by
      intro acc2
      simp only [rebuild_step]
      split
      next heq => exact List.mem_append_right _ (List.mem_singleton.mpr rfl)
      next c2 heq => rw [hcn] at heq; cases heq
    exact rebuild_foldl_errors_mem md out dry werr k (msg_content_not_found k) hadd files _ hkf
  · exact rebuild_foldl_writes_safe md out dry werr files _ (by intro w hw; simp at hw)

/-- C6 witness: the ../../evil.py key with its content present yields the
security diagnostic in the rebuild run. -/
theorem rebuild_traversal_key_guard_witness :
    msg_security_skip (chars "../../evil.py") ∈
      (rebuild doc_evil (some [chars "../../evil.py"]) (chars "/out") false no_write_err).errors :=
  (rebuild_traversal_key_guard doc_evil (chars "/out") false no_write_err
      [chars "../../evil.py"] (chars "../../evil.py") ⟨0, [], [], []⟩
      (Or.inr (Or.inl (by decide)))).2.1
    (chars "malicious code") (by decide) (by decide)

/-- C7: a matched file — one the program pairs with a snapshot key that
passes the `if match_key:` truthiness test of delta.py:106, i.e. a
non-empty key — whose current mtime agrees with the snapshot timestamp once
both are truncated to the minute is excluded from `modified` and `added`,
and its matched key is excluded from `deleted`. -/
theorem get_delta_minute_tolerance (fs : FileSys) (snapshot : List (Str × DateTime))
    (current : List Str) (f k : Str) (dt cur : DateTime)
    (hne : snapshot.isEmpty = false)
    (hf : f ∈ current)
    (hm : find_match snapshot (compute_rel_path fs (compute_common_root fs current) f) =
      some (k, dt))
    (hkne : k.isEmpty = false)
    (hmt : fs.mtime f = some cur)
    (heq : trunc_minute cur = trunc_minute dt) :
    f ∉ (get_delta fs snapshot current).modified ∧
    f ∉ (get_delta fs snapshot current).added ∧
    k ∉ (get_delta fs snapshot current).deleted := by
  have hch : has_changed fs f dt = false := by
    unfold has_changed
    rw [hmt]
    simp [heq]
  refine ⟨?_, ?_, ?_⟩
  · intro hmem
    unfold get_delta at hmem
    rw [if_neg (by simp [hne])] at hmem
    obtain ⟨kdt, hfm, _, hchg⟩ := delta_scan_modified_spec fs snapshot _ current f hmem
    rw [hm] at hfm
    obtain rfl := Option.some.inj hfm
    rw [hch] at hchg
    cases hchg
  · intro hmem
    unfold get_delta at hmem
    rw [if_neg (by simp [hne])] at hmem
    rcases delta_scan_added_spec fs snapshot _ current f hmem with hnone | ⟨kdt2, hfm2, hemp2⟩
    · rw [hm] at hnone
      cases hnone
    · rw [hm] at hfm2
      obtain rfl := Option.some.inj hfm2
      simp [hkne] at hemp2
  · intro hmem
    obtain ⟨_, hk2⟩ := get_delta_deleted_spec fs snapshot current k hmem
    exact hk2 (delta_scan_matched_spec fs snapshot _ current f (k, dt) hf hm hkne)

/-- C7 witness: /r/a/config.py has mtime 10:00:45 against a 10:00 snapshot
entry and lands in no set. -/
theorem get_delta_minute_tolerance_witness :
    chars "/r/a/config.py" ∉ (get_delta fs_ab snap_ab current_ab).modified ∧
    chars "/r/a/config.py" ∉ (get_delta fs_ab snap_ab current_ab).added ∧
    chars "a/config.py" ∉ (get_delta fs_ab snap_ab current_ab).deleted :=
  get_delta_minute_tolerance fs_ab snap_ab current_ab (chars "/r/a/config.py")
    (chars "a/config.py") dt_ref dt_ref_sec (by decide) (by decide) (by decide) (by decide)
    (by decide) (by decide)

/-- C8: rebuild with dry-run enabled performs no write and creates no
directory, and the count of processed files equals the number of keys whose
content block is found and which pass the traversal guard. -/
theorem rebuild_dry_run_frame (md out : Str) (werr : Str → Option Str) (files : List Str) :
    (rebuild md (some files) out true werr).writes = [] ∧
    (rebuild md (some files) out true werr).mkdirs = [] ∧
    (rebuild md (some files) out true werr).created =
      (files.filter (fun kk => (extract_file_content md kk).isSome && !(path_blocked kk))).length := by
  have h := rebuild_foldl_dry_frame md out werr files ⟨0, [], [], []⟩
  exact ⟨h.1, h.2.1, by simpa using h.2.2⟩

/-- C8 witness: the valid three-file snapshot reports 3 processed files,
no write and no directory. -/
theorem rebuild_dry_run_frame_witness :
    (rebuild doc_three (some [chars "src/main.py", chars "config/settings.json", chars "t.py"])
        (chars "/out") true no_write_err).writes = [] ∧
    (rebuild doc_three (some [chars "src/main.py", chars "config/settings.json", chars "t.py"])
        (chars "/out") true no_write_err).mkdirs = [] ∧
    (rebuild doc_three (some [chars "src/main.py", chars "config/settings.json", chars "t.py"])
        (chars "/out") true no_write_err).created = 3 := by
  have h := rebuild_dry_run_frame doc_three (chars "/out") no_write_err
    [chars "src/main.py", chars "config/settings.json", chars "t.py"]
  exact ⟨h.1, h.2.1, h.2.2.trans (by decide)⟩

/-- C9 counterexample: in dry-run mode a key whose captured content holds
the truncation marker produces no diagnostic at all (the check sits after
the dry-run `continue`, rebuilder.py:91-102). -/
theorem rebuild_dryrun_truncation_cex :
    extract_file_content doc_tr (chars "large.py") =
      some (chars "part 1\n[TRUNCATED]\npart 2") ∧
    has_trunc (chars "part 1\n[TRUNCATED]\npart 2") = true ∧
    (rebuild doc_tr (some [chars "large.py"]) (chars "/out") true no_write_err).errors = [] := by
  decide

/-- C9 (amended): outside dry-run mode, for every processed key whose
captured content holds the truncation marker and whose write succeeds, the
diagnostics contain the partial-copy warning. -/
theorem rebuild_truncation_warning (md out : Str) (werr : Str → Option Str)
    (files : List Str) (k c : Str)
    (hmem : k ∈ files) (hc : extract_file_content md k = some c)
    (hsafe : path_blocked k = false) (hw : werr (target_path out k) = none)
    (ht : has_trunc c = true) :
    msg_truncated k ∈ (rebuild md (some files) out false werr).errors := by
  have hadd : ∀ acc : RebuildResult,
      msg_truncated k ∈ (rebuild_step md out false werr acc k).errors := by
    intro acc
    simp only [rebuild_step]
    split
    next heq => rw [hc] at heq; cases heq
    next c2 heq =>
      have hcc : c = c2 := by
        rw [hc] at heq
        exact Option.some.inj heq
      subst hcc
      rw [if_neg (by simp [hsafe])]
      rw [if_neg (by simp)]
      split
      next e2 heq2 => rw [hw] at heq2; cases heq2
      next heq2 =>
        simp [ht]
  exact rebuild_foldl_errors_mem md out false werr k (msg_truncated k) hadd files _ hmem

/-- C9 witness: rebuilding the truncated snapshot without dry-run records
the warning. -/
theorem rebuild_truncation_warning_witness :
    msg_truncated (chars "large.py") ∈
      (rebuild doc_tr (some [chars "large.py"]) (chars "/out") false no_write_err).errors :=
  rebuild_truncation_warning doc_tr (chars "/out") no_write_err [chars "large.py"]
    (chars "large.py") (chars "part 1\n[TRUNCATED]\npart 2")
    (by decide) (by decide) (by decide) rfl (by decide)

/-- C10 counterexample: when the only metadata entry has a malformed
timestamp the baseline is treated as absent, and a current file then lands
in `modified` as well — contradicting "never modified". -/
theorem decode_all_malformed_cex :
    decode_files [(chars "a.py", chars "not-a-date")] = [] ∧
    chars "/r/a.py" ∈ (get_delta_from_files fs_plain [(chars "a.py", chars "not-a-date")]
        [chars "/r/a.py"]).modified := by
  decide

/-- C10 (amended): an entry whose timestamp fails to parse is dropped from
the decoded baseline and its key never appears in `deleted`; while the
decoded baseline stays non-empty, a current file matching no surviving key
is classified `added` and not `modified`; and if every entry is malformed
the run takes the absent-baseline path, which returns every candidate in
both `added` and `modified`. -/
theorem decode_malformed_dropped (fs : FileSys) (entries : List (Str × Str))
    (current : List Str) (k f : Str) :
    ((∀ s, (k, s) ∈ entries → parse_timestamp s = none) →
        k ∉ (decode_files entries).map Prod.fst ∧
        k ∉ (get_delta_from_files fs entries current).deleted) ∧
    (decode_files entries ≠ [] → f ∈ current →
        find_match (decode_files entries)
          (compute_rel_path fs (compute_common_root fs current) f) = none →
        f ∈ (get_delta_from_files fs entries current).added ∧
        f ∉ (get_delta_from_files fs entries current).modified) ∧
    ((∀ e ∈ entries, parse_timestamp e.2 = none) →
        get_delta_from_files fs entries current = ⟨current, current, []⟩) := by
  refine ⟨?_, ?_, ?_⟩
  · intro hall
    have hnotin : k ∉ (decode_files entries).map Prod.fst := by
      intro hkm
      obtain ⟨pair, hpair, hfst⟩ := List.mem_map.mp hkm
      obtain ⟨e, he, hmap⟩ := List.mem_filterMap.mp hpair
      cases hp : parse_timestamp e.2 with
      | none => rw [hp] at hmap; cases hmap
      | some dtv =>
        rw [hp] at hmap
        have hpair2 : pair = (e.1, dtv) := (Option.some.inj hmap).symm
        have he1 : e.1 = k := by rw [hpair2] at hfst; exact hfst
        have hke : (k, e.2) ∈ entries := by
          rw [← he1]
          exact he
        have := hall e.2 hke
        rw [this] at hp
        cases hp
    refine ⟨hnotin, ?_⟩
    intro hdel
    obtain ⟨hk1, _⟩ := get_delta_deleted_spec fs (decode_files entries) current k hdel
    exact hnotin hk1
  · intro hnonempty hf hfm
    have hne : (decode_files entries).isEmpty = false := by
      cases hde : decode_files entries with
      | nil => exact absurd hde hnonempty
      | cons a t => simp
    constructor
    · unfold get_delta_from_files get_delta
      rw [if_neg (by simp [hne])]
      exact delta_scan_added_of_none fs _ _ current f hf hfm
    · intro hmem
      unfold get_delta_from_files get_delta at hmem
      rw [if_neg (by simp [hne])] at hmem
      obtain ⟨kdt, hfm2, _, _⟩ := delta_scan_modified_spec fs _ _ current f hmem
      rw [hfm] at hfm2
      cases hfm2
  · intro hall
    have hde : decode_files entries = [] := by
      unfold decode_files
      rw [List.filterMap_eq_nil_iff]
      intro e he
      rw [hall e he]
      rfl
    unfold get_delta_from_files
    rw [hde]
    rfl

/-- C10 witness: old.py with a malformed timestamp is dropped and never
deleted while keep.py survives; an all-malformed record degenerates to the
absent-baseline result. -/
theorem decode_malformed_dropped_witness :
    (chars "old.py" ∉ (decode_files [(chars "old.py", chars "bad"),
        (chars "keep.py", chars "2026-02-17 10:00")]).map Prod.fst ∧
     chars "old.py" ∉ (get_delta_from_files fs_plain
        [(chars "old.py", chars "bad"), (chars "keep.py", chars "2026-02-17 10:00")]
        [chars "/r/x.py"]).deleted) ∧
    get_delta_from_files fs_plain [(chars "a.py", chars "zzz")] [chars "/r/x.py"] =
      ⟨[chars "/r/x.py"], [chars "/r/x.py"], []⟩ := by
  constructor
  · refine (decode_malformed_dropped fs_plain
      [(chars "old.py", chars "bad"), (chars "keep.py", chars "2026-02-17 10:00")]
      [chars "/r/x.py"] (chars "old.py") (chars "")).1 ?_
    intro s hs
    rcases List.mem_cons.mp hs with h | h
    · rw [Prod.mk.injEq] at h
      rw [h.2]
      decide
    · have h2 := List.mem_singleton.mp h
      rw [Prod.mk.injEq] at h2
      exact absurd h2.1 (by decide)
  · exact (decode_malformed_dropped fs_plain [(chars "a.py", chars "zzz")]
      [chars "/r/x.py"] (chars "") (chars "")).2.2 (by decide)
